import Mathlib

open scoped List

/-!
Shallow embedding of the performance-analytics core of the
`sistema-de-controle-de-ativos-back` repository
(`src/services/analytics_service.py` and the portfolio helpers in
`src/crud.py`), together with theorems checking the natural-language
specification against it.

Conventions of the embedding:
* Python floats are modelled as elements of a linear ordered field
  (`ℚ` for the pure list computations, `ℝ` for the pipeline, which
  needs `sqrt` and real exponentiation);
* `datetime` values are modelled as integers;
* Python's stable sorts (`list.sort`, `sorted`, SQL `ORDER BY`,
  `DataFrame.sort_values`) are modelled with the stable insertion sort
  `ssort` below: a sort is determined extensionally by its comparator
  and stability, so any stable sort is a faithful model of CPython's
  stable `list.sort`;
* fallible lookups return `Option`, and the service functions return a
  `Resultado`-style sum type mirroring the `{"error": ...}` dictionaries.
-/

section OrdenacaoDef

variable {β : Type}

/-- Insert `x` into `l` directly before the first element `y` with
`antes x y` (i.e. `x` must come strictly before `y`); ties go after. -/
def sinsert (antes : β → β → Bool) (x : β) : List β → List β
  | [] => [x]
  | y :: ys => if antes x y then x :: y :: ys else y :: sinsert antes x ys

/-- Stable insertion sort: elements are processed in input order and each
is placed after all earlier elements it is not strictly before.  This is
extensionally the behaviour of CPython's stable `list.sort`/`sorted` for
the comparator `antes = (key · < key ·)` (ascending) or
`antes = (key · > key ·)` (descending, i.e. `reverse=True`). -/
def ssort (antes : β → β → Bool) (l : List β) : List β :=
  l.foldl (fun acc x => sinsert antes x acc) []

end OrdenacaoDef

section Calculos

variable {α : Type} [LinearOrderedField α]

/-- Embeds `AnalyticsService.calcular_retorno_simples`: simple return
between two prices, with the `preco_inicial == 0` division guard. -/
def calcular_retorno_simples (preco_inicial preco_final : α) : α :=
  if preco_inicial = 0 then 0 else (preco_final - preco_inicial) / preco_inicial

/-- Embeds the loop of `calcular_retorno_composto`: for consecutive prices
`p0, p1` append `p1/p0 - 1`, or `0` when `p0 == 0`. -/
def retornosSeq : List α → List α
  | p0 :: p1 :: resto => (if p0 ≠ 0 then p1 / p0 - 1 else 0) :: retornosSeq (p1 :: resto)
  | _ => []

/-- Embeds `AnalyticsService.calcular_retorno_composto`: period-over-period
returns of a price series; empty when fewer than 2 prices. -/
def calcular_retorno_composto (precos : List α) : List α :=
  if precos.length < 2 then [] else retornosSeq precos

/-- Embeds `np.maximum.accumulate` starting from an initial value `a`. -/
def picosAcc (a : α) : List α → List α
  | [] => [a]
  | x :: xs => a :: picosAcc (max a x) xs

/-- Embeds `AnalyticsService.calcular_drawdown`: running-peak drawdown
series and its minimum; `([], 0)` when fewer than 2 prices. -/
def calcular_drawdown (precos : List α) : List α × α :=
  if precos.length < 2 then ([], 0)
  else
    match precos with
    | [] => ([], 0)
    | p :: ps =>
      let picos := picosAcc p ps
      let drawdowns := List.zipWith (fun v pico => (v - pico) / pico) (p :: ps) picos
      match drawdowns with
      | [] => ([], 0)
      | d :: ds => (d :: ds, ds.foldl min d)

/-- Embeds Python's `max` on a nonempty list (0 on the empty list, unused). -/
def maxHead : List α → α
  | [] => 0
  | x :: xs => xs.foldl max x

/-- Embeds Python's `min` on a nonempty list (0 on the empty list, unused). -/
def minHead : List α → α
  | [] => 0
  | x :: xs => xs.foldl min x

end Calculos

section Risco

/-- Embeds `np.mean`: the arithmetic mean of a list (as used on the
returns and on the volume column). -/
noncomputable def media (l : List ℝ) : ℝ := l.sum / (l.length : ℝ)

/-- Embeds `AnalyticsService.calcular_volatilidade`:
`np.std(retornos, ddof=1)` (i.e. `sqrt(sum((x - mean)^2) / (n - 1))`),
multiplied by `sqrt 252` when `anualizar` holds.  The Python parameter
default `anualizar=True` is applied explicitly at each call site of the
embedding. -/
noncomputable def calcular_volatilidade (retornos : List ℝ) (anualizar : Bool) : ℝ :=
  if retornos.length < 2 then 0
  else
    let volatilidade :=
      Real.sqrt ((retornos.map (fun r => (r - media retornos) ^ 2)).sum /
        ((retornos.length : ℝ) - 1))
    if anualizar then volatilidade * Real.sqrt 252 else volatilidade

/-- States the spec-side quantity for C4: the sample standard deviation
with denominator `n - 1`. -/
noncomputable def desvioPadraoAmostral (l : List ℝ) : ℝ :=
  Real.sqrt ((l.map (fun x => (x - media l) ^ 2)).sum / ((l.length : ℝ) - 1))

/-- Embeds `AnalyticsService.calcular_sharpe_ratio`.  The Python parameter
default `taxa_livre_risco=0.1` is applied explicitly at each call site of
the embedding. -/
noncomputable def calcular_sharpe_ratio (retornos : List ℝ) (taxa_livre_risco : ℝ) : ℝ :=
  if retornos.length < 2 then 0
  else
    let retorno_medio := media retornos * 252
    let volatilidade := calcular_volatilidade retornos true
    if volatilidade = 0 then 0
    else (retorno_medio - taxa_livre_risco) / volatilidade

end Risco

section Modelo

/-- Models a stored quote (`models.Cotacao`): timestamp, closing price and
(optional) volume — the fields `analisar_ativo` reads. -/
structure Cotacao where
  data_hora : ℤ
  preco_fechamento : ℝ
  volume : Option ℤ

/-- Models a stored dividend (`models.Dividendo`): ex-date and amount. -/
structure Dividendo where
  data_ex : ℤ
  valor : ℝ

/-- Models a stored instrument (`models.Ativo`) with its owned
collections. -/
structure Ativo where
  ticker : String
  nome_curto : String
  cotacoes : List Cotacao
  dividendos : List Dividendo

/-- Models the instrument table. -/
structure BancoDeDados where
  ativos : List Ativo

/-- Embeds `crud.get_ativo_by_ticker`: first instrument whose ticker
matches. -/
def get_ativo_by_ticker (db : BancoDeDados) (ticker : String) : Option Ativo :=
  db.ativos.find? (fun a => a.ticker == ticker)

/-- Ascending stable sort by timestamp, modelling both the SQL
`ORDER BY data_hora` of `crud.get_cotacoes_periodo` and the pandas
`sort_values('data')` of `analisar_ativo`. -/
def ordenarPorData (l : List Cotacao) : List Cotacao :=
  ssort (fun c1 c2 => decide (c1.data_hora < c2.data_hora)) l

/-- Embeds `crud.get_cotacoes_periodo`: quotes with
`data_inicio ≤ data_hora ≤ data_fim`, ordered by timestamp. -/
def get_cotacoes_periodo (a : Ativo) (data_inicio data_fim : ℤ) : List Cotacao :=
  ordenarPorData (a.cotacoes.filter
    (fun c => decide (data_inicio ≤ c.data_hora) && decide (c.data_hora ≤ data_fim)))

/-- Embeds `crud.get_dividendos_periodo`: dividends with
`data_inicio ≤ data_ex ≤ data_fim`, ordered by ex-date. -/
def get_dividendos_periodo (a : Ativo) (data_inicio data_fim : ℤ) : List Dividendo :=
  ssort (fun d1 d2 => decide (d1.data_ex < d2.data_ex))
    (a.dividendos.filter
      (fun d => decide (data_inicio ≤ d.data_ex) && decide (d.data_ex ≤ data_fim)))

/-- Models the dictionary returned by `analisar_ativo` on success (the
`performance` and `estatisticas` sub-dictionaries flattened). -/
structure Relatorio where
  ticker : String
  nome : String
  periodo_analise : ℤ
  preco_atual : ℝ
  preco_minimo : ℝ
  preco_maximo : ℝ
  retorno_total : ℝ
  retorno_anualizado : ℝ
  volatilidade : ℝ
  sharpe_ratio : ℝ
  max_drawdown : ℝ
  dividend_yield : ℝ
  numero_observacoes : ℕ
  volume_medio : ℝ
  numero_dividendos : ℕ

/-- Models the result of `analisar_ativo`: either an `{"error": msg}`
dictionary or a full report. -/
inductive Resultado where
  | erro (msg : String)
  | ok (relatorio : Relatorio)

/-- Names the price column used by `analisar_ativo`: window quotes
(already ordered by `get_cotacoes_periodo`), sorted again by the pandas
sort, mapped to closing prices. -/
def precosDe (a : Ativo) (data_inicio data_fim : ℤ) : List ℝ :=
  (ordenarPorData (get_cotacoes_periodo a data_inicio data_fim)).map
    (fun c => c.preco_fechamento)

/-- Embeds `AnalyticsService.analisar_ativo`: resolve the ticker, load the
quotes of the lookback window, and either fail (unknown ticker / fewer
than 2 quotes) or assemble the performance report.  `agora` stands for
`datetime.now()`; the Python defaults `periodo_dias=252` and
`taxa_livre_risco=0.1` are applied at the call sites. -/
noncomputable def analisar_ativo (db : BancoDeDados) (ticker : String)
    (agora periodo_dias : ℤ) : Resultado :=
  match get_ativo_by_ticker db ticker with
  | none => Resultado.erro "Ativo não encontrado"
  | some ativo =>
    let data_inicio := agora - periodo_dias
    let cotacoes := get_cotacoes_periodo ativo data_inicio agora
    if cotacoes.length < 2 then Resultado.erro "Dados insuficientes para análise"
    else
      let ordenadas := ordenarPorData cotacoes
      let precos := ordenadas.map (fun c => c.preco_fechamento)
      let retornos := calcular_retorno_composto precos
      let retorno_total := calcular_retorno_simples precos.headI (precos.getLastD 0)
      let retorno_anualizado := (1 + retorno_total) ^ ((252 : ℝ) / (precos.length : ℝ)) - 1
      let volatilidade := calcular_volatilidade retornos true
      let sharpe := calcular_sharpe_ratio retornos (0.1 : ℝ)
      let dd := calcular_drawdown precos
      let dividendos := get_dividendos_periodo ativo data_inicio agora
      let dividend_yield :=
        if 0 < precos.getLastD 0 then (dividendos.map (fun d => d.valor)).sum / precos.getLastD 0
        else 0
      Resultado.ok
        { ticker := ticker
          nome := ativo.nome_curto
          periodo_analise := periodo_dias
          preco_atual := precos.getLastD 0
          preco_minimo := minHead precos
          preco_maximo := maxHead precos
          retorno_total := retorno_total
          retorno_anualizado := retorno_anualizado
          volatilidade := volatilidade
          sharpe_ratio := sharpe
          max_drawdown := dd.2
          dividend_yield := dividend_yield
          numero_observacoes := precos.length
          volume_medio := media (ordenadas.map (fun c => ((c.volume.getD 0 : ℤ) : ℝ)))
          numero_dividendos := dividendos.length }

end Modelo

section Comparacao

/-- Models a row of the comparison table built by `comparar_ativos`. -/
structure EntradaComparacao where
  ticker : String
  nome : String
  retorno_total : ℝ
  retorno_anualizado : ℝ
  volatilidade : ℝ
  sharpe_ratio : ℝ
  max_drawdown : ℝ
  dividend_yield : ℝ

/-- Models the result of `comparar_ativos`: either the error dictionary or
the sorted comparison table together with the per-ticker details dict. -/
inductive ResultadoComparacao where
  | erro (msg : String)
  | ok (comparacao : List EntradaComparacao) (detalhes : List (String × Relatorio))

/-- Models insertion into a Python `dict` kept as an insertion-ordered
association list: re-assigning an existing key keeps its position. -/
def dictInsert (m : List (String × Relatorio)) (k : String) (v : Relatorio) :
    List (String × Relatorio) :=
  if m.any (fun p => p.1 == k) then m.map (fun p => if p.1 == k then (k, v) else p)
  else m ++ [(k, v)]

/-- Embeds one iteration of the loop of `comparar_ativos`: analyse the
ticker and keep the analysis unless it produced an error. -/
noncomputable def passoComparar (db : BancoDeDados) (agora periodo_dias : ℤ)
    (m : List (String × Relatorio)) (t : String) : List (String × Relatorio) :=
  match analisar_ativo db t agora periodo_dias with
  | Resultado.erro _ => m
  | Resultado.ok r => dictInsert m t r

/-- Embeds the accumulation loop of `comparar_ativos`: analyse each ticker
and keep the analyses that did not produce an error. -/
noncomputable def resultadosDe (db : BancoDeDados) (tickers : List String)
    (agora periodo_dias : ℤ) : List (String × Relatorio) :=
  tickers.foldl (passoComparar db agora periodo_dias) []

/-- Builds a comparison-table row from a ticker and its report. -/
def paraEntrada (t : String) (r : Relatorio) : EntradaComparacao :=
  { ticker := t
    nome := r.nome
    retorno_total := r.retorno_total
    retorno_anualizado := r.retorno_anualizado
    volatilidade := r.volatilidade
    sharpe_ratio := r.sharpe_ratio
    max_drawdown := r.max_drawdown
    dividend_yield := r.dividend_yield }

/-- Models `comparacao.sort(key=lambda x: x["sharpe_ratio"], reverse=True)`:
stable sort, descending by Sharpe ratio. -/
noncomputable def ordenarPorSharpe (l : List EntradaComparacao) : List EntradaComparacao :=
  ssort (fun a b => decide (b.sharpe_ratio < a.sharpe_ratio)) l

/-- Embeds `AnalyticsService.comparar_ativos`. -/
noncomputable def comparar_ativos (db : BancoDeDados) (tickers : List String)
    (agora periodo_dias : ℤ) : ResultadoComparacao :=
  let resultados := resultadosDe db tickers agora periodo_dias
  if resultados.isEmpty then ResultadoComparacao.erro "Nenhum ativo válido para comparação"
  else
    let comparacao := resultados.map (fun p => paraEntrada p.1 p.2)
    ResultadoComparacao.ok (ordenarPorSharpe comparacao) resultados

end Comparacao

section Carteira

/-- Models a portfolio holding (`models.CarteiraAtivo`) with the fields
`atualizar_valor_carteira` / `calcular_percentual_carteira` touch, plus
the owning instrument's quote list. -/
structure CarteiraAtivo where
  quantidade : ℝ
  valor_atual : ℝ
  percentual_carteira : ℝ
  cotacoes : List Cotacao

/-- Models a portfolio (`models.Carteira`): stored total value and
holdings. -/
structure CarteiraDeAtivos where
  valor_total : ℝ
  ativos : List CarteiraAtivo

/-- Embeds `sorted(cotacoes, key=lambda c: c.data_hora, reverse=True)[0]`
guarded by the emptiness check: the most recent stored quote. -/
def ultima_cotacao (l : List Cotacao) : Option Cotacao :=
  (ssort (fun c1 c2 => decide (c2.data_hora < c1.data_hora)) l).head?

/-- Names a holding's updated current value: quantity times most recent
closing price, or 0 with no stored quote. -/
def valorAtualDe (ca : CarteiraAtivo) : ℝ :=
  match ultima_cotacao ca.cotacoes with
  | some q => ca.quantidade * q.preco_fechamento
  | none => 0

/-- Names a holding after `atualizar_valor_carteira` processed it. -/
def atualizaHolding (ca : CarteiraAtivo) : CarteiraAtivo :=
  { ca with valor_atual := valorAtualDe ca }

/-- Embeds one iteration of the loop of `crud.atualizar_valor_carteira`:
set the holding's `valor_atual` from its most recent stored quote (0 when
none exists) and accumulate the running total. -/
def passoAtualiza (acc : List CarteiraAtivo × ℝ) (ca : CarteiraAtivo) :
    List CarteiraAtivo × ℝ :=
  match ultima_cotacao ca.cotacoes with
  | some q =>
    (acc.1 ++ [{ ca with valor_atual := ca.quantidade * q.preco_fechamento }],
     acc.2 + ca.quantidade * q.preco_fechamento)
  | none => (acc.1 ++ [{ ca with valor_atual := 0 }], acc.2)

/-- Embeds `crud.atualizar_valor_carteira`: update every holding's
`valor_atual`, store the accumulated total in the portfolio and also
return it. -/
def atualizar_valor_carteira (c : CarteiraDeAtivos) : CarteiraDeAtivos × ℝ :=
  let resultado := c.ativos.foldl passoAtualiza ([], 0)
  ({ c with ativos := resultado.1, valor_total := resultado.2 }, resultado.2)

/-- Embeds `crud.calcular_percentual_carteira`: when the stored total is
nonzero, set `percentual_carteira` of every holding whose `valor_atual`
is truthy (nonzero) to `valor_atual / valor_total * 100`; other holdings
and the zero-total case are left untouched. -/
noncomputable def calcular_percentual_carteira (c : CarteiraDeAtivos) : CarteiraDeAtivos :=
  if c.valor_total = 0 then c
  else
    { c with ativos := c.ativos.map (fun ca =>
        if ca.valor_atual ≠ 0
        then { ca with percentual_carteira := ca.valor_atual / c.valor_total * 100 }
        else ca) }

/-- Embeds the portfolio read path (`routers/wallet.get_wallet` and
`AnalyticsService.analisar_carteira`): refresh the values, then the
weights. -/
noncomputable def leitura_carteira (c : CarteiraDeAtivos) : CarteiraDeAtivos :=
  calcular_percentual_carteira (atualizar_valor_carteira c).1

end Carteira

section Instancias

/-- Provides an instrument with two quotes in the test window. -/
def ativoX : Ativo :=
  { ticker := "X", nome_curto := "Xco",
    cotacoes := [⟨1, 100, none⟩, ⟨2, 110, none⟩], dividendos := [] }

/-- Provides an instrument with a single quote in the test window. -/
def ativoY : Ativo :=
  { ticker := "Y", nome_curto := "Yco", cotacoes := [⟨1, 100, none⟩], dividendos := [] }

/-- Provides a two-instrument table for the concrete witnesses. -/
def bancoTeste : BancoDeDados := ⟨[ativoX, ativoY]⟩

/-- Provides a one-holding portfolio whose instrument has no stored quote
but whose stored weight is the stale value 50. -/
def carteiraPresa : CarteiraDeAtivos :=
  { valor_total := 123
    ativos := [{ quantidade := 1, valor_atual := 7, percentual_carteira := 50, cotacoes := [] }] }

/-- Provides the spec's scenario-B portfolio: quantities 10 and 5 with
latest prices 50 and 200. -/
def carteiraB : CarteiraDeAtivos :=
  { valor_total := 0
    ativos :=
      [{ quantidade := 10, valor_atual := 0, percentual_carteira := 0,
         cotacoes := [⟨1, 50, none⟩] },
       { quantidade := 5, valor_atual := 0, percentual_carteira := 0,
         cotacoes := [⟨1, 200, none⟩] }] }

end Instancias

section CalculosLemmas

variable {α : Type} [LinearOrderedField α]

theorem retornosSeq_length (l : List α) : (retornosSeq l).length = l.length - 1 := by
  match l with
  | [] => simp [retornosSeq]
  | [p] => simp [retornosSeq]
  | p0 :: p1 :: resto =>
    have ih := retornosSeq_length (p1 :: resto)
    simp [retornosSeq, ih]

theorem retornosSeq_getElem? (l : List α) (i : ℕ) (hi : i + 1 < l.length) :
    (retornosSeq l)[i]? =
      some (if l.get ⟨i, by omega⟩ ≠ 0
            then l.get ⟨i + 1, hi⟩ / l.get ⟨i, by omega⟩ - 1 else 0) := by
  match l, i with
  | p0 :: p1 :: resto, 0 => simp [retornosSeq]
  | p0 :: p1 :: resto, (j + 1) =>
    have ih := retornosSeq_getElem? (p1 :: resto) j (by simpa using hi)
    simpa [retornosSeq] using ih

theorem picosAcc_length (a : α) (l : List α) : (picosAcc a l).length = l.length + 1 := by
  match l with
  | [] => simp [picosAcc]
  | x :: xs => simp [picosAcc, picosAcc_length (max a x) xs]

theorem picosAcc_getElem? (a : α) (l : List α) (i : ℕ) (hi : i < l.length + 1) :
    (picosAcc a l)[i]? = some ((l.take i).foldl max a) := by
  match l, i with
  | [], 0 => simp [picosAcc]
  | [], (j + 1) => simp at hi
  | x :: xs, 0 => simp [picosAcc]
  | x :: xs, (j + 1) =>
    have ih := picosAcc_getElem? (max a x) xs j (by simpa using hi)
    simpa [picosAcc] using ih

theorem foldl_min_le_init (a : α) (l : List α) : l.foldl min a ≤ a := by
  induction l generalizing a with
  | nil => simp
  | cons x xs ih => exact le_trans (ih (min a x)) (min_le_left a x)

theorem foldl_min_le_mem (a : α) (l : List α) : ∀ x ∈ l, l.foldl min a ≤ x := by
  induction l generalizing a with
  | nil => simp
  | cons y ys ih =>
    intro x hx
    rcases List.mem_cons.mp hx with h | h
    · subst h
      exact le_trans (foldl_min_le_init (min a x) ys) (min_le_right a x)
    · exact ih (min a y) x h

theorem foldl_min_mem (a : α) (l : List α) : l.foldl min a = a ∨ l.foldl min a ∈ l := by
  induction l generalizing a with
  | nil => simp
  | cons y ys ih =>
    rcases ih (min a y) with h | h
    · rcases min_cases a y with ⟨h', _⟩ | ⟨h', _⟩
      · left; rw [List.foldl_cons, h, h']
      · right; rw [List.foldl_cons, h, h']; exact List.mem_cons_self y ys
    · right; exact List.mem_cons_of_mem y h

theorem calcular_drawdown_cons (p q : α) (qs : List α) :
    calcular_drawdown (p :: q :: qs) =
      (List.zipWith (fun v pico => (v - pico) / pico) (p :: q :: qs) (picosAcc p (q :: qs)),
       minHead (List.zipWith (fun v pico => (v - pico) / pico)
         (p :: q :: qs) (picosAcc p (q :: qs)))) := by
  unfold calcular_drawdown
  rw [if_neg (by simp)]
  simp only [picosAcc, List.zipWith_cons_cons, minHead]

theorem ddZip_getElem? (c y : α) (ys : List α) (i : ℕ) (hi : i < ys.length + 1) :
    (List.zipWith (fun v pico => (v - pico) / pico) (y :: ys) (picosAcc c ys))[i]? =
      some (((y :: ys).get ⟨i, by simpa using hi⟩ - (ys.take i).foldl max c) /
            (ys.take i).foldl max c) := by
  match ys, i with
  | [], 0 => simp [picosAcc]
  | x :: xs, 0 => simp [picosAcc]
  | [], (j + 1) => simp at hi
  | x :: xs, (j + 1) =>
    have ih := ddZip_getElem? (max c x) x xs j (by simpa using hi)
    simpa [picosAcc] using ih

theorem dd_chain_replicate (a : α) (l : List α) (h : List.Chain' (· < ·) (a :: l)) :
    List.zipWith (fun v pico => (v - pico) / pico) (a :: l) (picosAcc a l) =
      List.replicate (l.length + 1) 0 := by
  induction l generalizing a with
  | nil => simp [picosAcc]
  | cons x xs ih =>
    have hax : a < x := (List.chain'_cons.mp h).1
    have h2 : List.Chain' (· < ·) (x :: xs) := (List.chain'_cons.mp h).2
    have hmax : max a x = x := max_eq_right hax.le
    simp only [picosAcc, List.zipWith_cons_cons, hmax, ih x h2, sub_self, zero_div,
      List.length_cons, List.replicate_succ]

theorem foldl_min_replicate_zero (n : ℕ) : (List.replicate n (0 : α)).foldl min 0 = 0 := by
  induction n with
  | zero => simp
  | succ k ih => simpa [List.replicate_succ]

end CalculosLemmas

/-- C2: for `len(precos) ≥ 2`, `calcular_drawdown` returns the series
`drawdown[i] = (precos[i] - peak[i]) / peak[i]` with `peak[i] = max(precos[0..i])`,
and a `max_drawdown` equal to `min(drawdowns)` (a member of the series and
a lower bound of it), which is always ≤ 0; for a strictly increasing series
the `max_drawdown` is 0; for fewer than 2 prices the result is `([], 0)`. -/
theorem calcular_drawdown_spec (precos : List ℚ) :
    (precos.length < 2 → calcular_drawdown precos = ([], 0)) ∧
    (2 ≤ precos.length →
      (calcular_drawdown precos).1.length = precos.length ∧
      (∀ i, (hi : i < precos.length) →
        (calcular_drawdown precos).1[i]? =
          some ((precos.get ⟨i, hi⟩ - maxHead (precos.take (i + 1))) /
                maxHead (precos.take (i + 1)))) ∧
      (calcular_drawdown precos).2 = minHead (calcular_drawdown precos).1 ∧
      ((calcular_drawdown precos).2 ∈ (calcular_drawdown precos).1 ∧
       ∀ x ∈ (calcular_drawdown precos).1, (calcular_drawdown precos).2 ≤ x) ∧
      (calcular_drawdown precos).2 ≤ 0 ∧
      (List.Chain' (· < ·) precos → (calcular_drawdown precos).2 = 0)) := by
  constructor
  · intro h
    unfold calcular_drawdown
    rw [if_pos h]
  · intro h
    match precos, h with
    | p :: q :: qs, _ =>
      have hfst : (calcular_drawdown (p :: q :: qs)).1 =
          (p - p) / p ::
            List.zipWith (fun v pico => (v - pico) / pico) (q :: qs)
              (picosAcc (max p q) qs) := by
        rw [calcular_drawdown_cons]
        simp [picosAcc]
      have hsnd : (calcular_drawdown (p :: q :: qs)).2 =
          (List.zipWith (fun v pico => (v - pico) / pico) (q :: qs)
              (picosAcc (max p q) qs)).foldl min ((p - p) / p) := by
        rw [calcular_drawdown_cons]
        simp [picosAcc, minHead]
      refine ⟨?_, ?_, ?_, ⟨?_, ?_⟩, ?_, ?_⟩
      · rw [hfst]
        simp [picosAcc_length]
      · intro i hi
        have hzip := ddZip_getElem? p p (q :: qs) i (by simpa using hi)
        have hfst0 : (calcular_drawdown (p :: q :: qs)).1 =
            List.zipWith (fun v pico => (v - pico) / pico) (p :: q :: qs)
              (picosAcc p (q :: qs)) := by
          rw [calcular_drawdown_cons]
        rw [hfst0, hzip]
        have hmx : maxHead ((p :: q :: qs).take (i + 1)) =
            ((q :: qs).take i).foldl max p := by
          simp [maxHead]
        rw [hmx]
      · rw [calcular_drawdown_cons]
      · rw [hsnd, hfst]
        rcases foldl_min_mem ((p - p) / p)
            (List.zipWith (fun v pico => (v - pico) / pico) (q :: qs)
              (picosAcc (max p q) qs)) with h' | h'
        · rw [h']
          exact List.mem_cons_self _ _
        · exact List.mem_cons_of_mem _ h'
      · intro x hx
        rw [hfst] at hx
        rw [hsnd]
        rcases List.mem_cons.mp hx with h' | h'
        · rw [h']
          exact foldl_min_le_init _ _
        · exact foldl_min_le_mem _ _ x h'
      · rw [hsnd]
        have h0 : (p - p) / p = 0 := by rw [sub_self, zero_div]
        calc (List.zipWith (fun v pico => (v - pico) / pico) (q :: qs)
                (picosAcc (max p q) qs)).foldl min ((p - p) / p)
            ≤ (p - p) / p := foldl_min_le_init _ _
          _ = 0 := h0
      · intro hchain
        have hz := dd_chain_replicate p (q :: qs) hchain
        have hfst0 : (calcular_drawdown (p :: q :: qs)).1 =
            List.zipWith (fun v pico => (v - pico) / pico) (p :: q :: qs)
              (picosAcc p (q :: qs)) := by
          rw [calcular_drawdown_cons]
        have hsnd0 : (calcular_drawdown (p :: q :: qs)).2 =
            minHead ((calcular_drawdown (p :: q :: qs)).1) := by
          rw [calcular_drawdown_cons]
        rw [hsnd0, hfst0, hz]
        simp [List.replicate_succ, minHead, foldl_min_replicate_zero]

/-- Witness for C2 at the spec scenario prices `[100, 110, 99, 121]`:
the drawdown series is `[0, 0, -1/10, 0]` and the max drawdown `-1/10 ≤ 0`. -/
theorem calcular_drawdown_spec_witness :
    calcular_drawdown [(100 : ℚ), 110, 99, 121] = ([0, 0, -1/10, 0], -1/10) ∧
    (calcular_drawdown [(100 : ℚ), 110, 99, 121]).2 ≤ 0 := by
  refine ⟨by norm_num [calcular_drawdown, picosAcc, max_def, min_def], ?_⟩
  exact ((calcular_drawdown_spec [(100 : ℚ), 110, 99, 121]).2 (by norm_num)).2.2.2.2.1

/-- C5: `calcular_retorno_composto` returns `[]` for fewer than 2 prices;
otherwise a list of length `n - 1` whose `i`-th element is
`precos[i+1]/precos[i] - 1` when `precos[i] ≠ 0` and `0` otherwise. -/
theorem calcular_retorno_composto_spec (precos : List ℚ) :
    (precos.length < 2 → calcular_retorno_composto precos = []) ∧
    (2 ≤ precos.length →
      (calcular_retorno_composto precos).length = precos.length - 1 ∧
      ∀ i, (hi : i + 1 < precos.length) →
        (calcular_retorno_composto precos)[i]? =
          some (if precos.get ⟨i, by omega⟩ ≠ 0
                then precos.get ⟨i + 1, hi⟩ / precos.get ⟨i, by omega⟩ - 1 else 0)) := by
  constructor
  · intro h
    unfold calcular_retorno_composto
    rw [if_pos h]
  · intro h
    have hne : ¬ precos.length < 2 := by omega
    unfold calcular_retorno_composto
    rw [if_neg hne]
    exact ⟨retornosSeq_length precos, fun i hi => retornosSeq_getElem? precos i hi⟩

/-- Witness for C5 at prices `[100, 110, 99]`: the returns are
`[1/10, -1/10]`, of length 2. -/
theorem calcular_retorno_composto_spec_witness :
    calcular_retorno_composto [(100 : ℚ), 110, 99] = [1/10, -1/10] ∧
    (calcular_retorno_composto [(100 : ℚ), 110, 99]).length =
      [(100 : ℚ), 110, 99].length - 1 := by
  exact ⟨by norm_num [calcular_retorno_composto, retornosSeq],
    ((calcular_retorno_composto_spec [(100 : ℚ), 110, 99]).2 (by norm_num)).1⟩

/-- C6: `calcular_retorno_simples p0 p1` equals `(p1 - p0) / p0` when
`p0 ≠ 0` and `0` when `p0 = 0`; in particular it is 0 on equal nonzero
prices and 0 whenever the initial price is 0. -/
theorem calcular_retorno_simples_spec (p0 p1 : ℚ) :
    (p0 ≠ 0 → calcular_retorno_simples p0 p1 = (p1 - p0) / p0) ∧
    (p0 = 0 → calcular_retorno_simples p0 p1 = 0) ∧
    (p0 ≠ 0 → calcular_retorno_simples p0 p0 = 0) ∧
    calcular_retorno_simples (0 : ℚ) p1 = 0 := by
  refine ⟨fun h => ?_, fun h => ?_, fun h => ?_, ?_⟩
  · simp only [calcular_retorno_simples, if_neg h]
  · simp only [calcular_retorno_simples, if_pos h]
  · simp only [calcular_retorno_simples, if_neg h, sub_self, zero_div]
  · simp [calcular_retorno_simples]

/-- Witness for C6: the simple return from 100 to 110 is `1/10`, and the
guard returns 0 on a zero initial price. -/
theorem calcular_retorno_simples_spec_witness :
    calcular_retorno_simples (100 : ℚ) 110 = 1/10 ∧
    calcular_retorno_simples (0 : ℚ) 5 = 0 := by
  constructor
  · rw [(calcular_retorno_simples_spec (100 : ℚ) 110).1 (by norm_num)]
    norm_num
  · exact (calcular_retorno_simples_spec (0 : ℚ) 5).2.1 rfl

/-- C4: `calcular_volatilidade` returns the sample standard deviation with
denominator `n - 1`, multiplied by `sqrt 252` when `anualizar` is true,
returns 0 when the list has fewer than 2 elements, and is ≥ 0 for all
inputs. -/
theorem calcular_volatilidade_spec (retornos : List ℝ) (anualizar : Bool) :
    (retornos.length < 2 → calcular_volatilidade retornos anualizar = 0) ∧
    (2 ≤ retornos.length →
      calcular_volatilidade retornos anualizar =
        (if anualizar then desvioPadraoAmostral retornos * Real.sqrt 252
         else desvioPadraoAmostral retornos)) ∧
    0 ≤ calcular_volatilidade retornos anualizar := by
  refine ⟨fun h => ?_, fun h => ?_, ?_⟩
  · simp only [calcular_volatilidade, if_pos h]
  · simp only [calcular_volatilidade, if_neg (by omega : ¬ retornos.length < 2)]
    rfl
  · rcases lt_or_ge retornos.length 2 with h | h
    · simp [calcular_volatilidade, h]
    · simp only [calcular_volatilidade, if_neg (not_lt.mpr h)]
      cases anualizar with
      | false => exact Real.sqrt_nonneg _
      | true => exact mul_nonneg (Real.sqrt_nonneg _) (Real.sqrt_nonneg _)

/-- Witness for C4: a single return gives volatility 0; on `[1, 2]` the
annualized volatility is the sample standard deviation times `sqrt 252`,
and it is nonnegative. -/
theorem calcular_volatilidade_spec_witness :
    calcular_volatilidade [(5 : ℝ)] true = 0 ∧
    calcular_volatilidade [(1 : ℝ), 2] true =
      desvioPadraoAmostral [(1 : ℝ), 2] * Real.sqrt 252 ∧
    0 ≤ calcular_volatilidade [(1 : ℝ), 2] true := by
  refine ⟨(calcular_volatilidade_spec [(5 : ℝ)] true).1 (by norm_num), ?_,
    (calcular_volatilidade_spec [(1 : ℝ), 2] true).2.2⟩
  have h := (calcular_volatilidade_spec [(1 : ℝ), 2] true).2.1 (by norm_num)
  simpa using h

/-- C3: `calcular_sharpe_ratio` equals
`(mean(retornos) * 252 - taxa) / annualized_volatility(retornos)` when the
list has ≥ 2 elements and the annualized volatility is nonzero, and equals
0 whenever the volatility is 0 or the list has fewer than 2 elements. -/
theorem calcular_sharpe_ratio_spec (retornos : List ℝ) (taxa_livre_risco : ℝ) :
    (2 ≤ retornos.length → calcular_volatilidade retornos true ≠ 0 →
      calcular_sharpe_ratio retornos taxa_livre_risco =
        (media retornos * 252 - taxa_livre_risco) / calcular_volatilidade retornos true) ∧
    (calcular_volatilidade retornos true = 0 ∨ retornos.length < 2 →
      calcular_sharpe_ratio retornos taxa_livre_risco = 0) := by
  constructor
  · intro h hv
    simp only [calcular_sharpe_ratio, if_neg (by omega : ¬ retornos.length < 2), if_neg hv]
  · intro h
    rcases h with hv | hl
    · by_cases hl : retornos.length < 2
      · simp only [calcular_sharpe_ratio, if_pos hl]
      · simp only [calcular_sharpe_ratio, if_neg hl, if_pos hv]
    · simp only [calcular_sharpe_ratio, if_pos hl]

/-- Witness for C3: a single return gives Sharpe 0, and on `[0, 1]` (with
nonzero volatility) the Sharpe ratio is the annualized excess return over
the annualized volatility. -/
theorem calcular_sharpe_ratio_spec_witness :
    calcular_sharpe_ratio [(5 : ℝ)] (0.1 : ℝ) = 0 ∧
    calcular_sharpe_ratio [(0 : ℝ), 1] (0.1 : ℝ) =
      (media [(0 : ℝ), 1] * 252 - 0.1) / calcular_volatilidade [(0 : ℝ), 1] true := by
  constructor
  · exact (calcular_sharpe_ratio_spec [(5 : ℝ)] 0.1).2 (Or.inr (by norm_num))
  · refine (calcular_sharpe_ratio_spec [(0 : ℝ), 1] 0.1).1 (by norm_num) ?_
    have hval : calcular_volatilidade [(0 : ℝ), 1] true =
        Real.sqrt (1 / 2) * Real.sqrt 252 := by
      simp only [calcular_volatilidade]
      norm_num [media]
    rw [hval]
    positivity

/-- C1: once the ticker resolves to an instrument, `analisar_ativo` returns
the defined insufficient-data error dictionary when the lookback window
holds fewer than 2 quotes, and a full report when it holds 2 or more. -/
theorem analisar_ativo_dados_insuficientes (db : BancoDeDados) (ticker : String)
    (agora periodo_dias : ℤ) (ativo : Ativo)
    (h : get_ativo_by_ticker db ticker = some ativo) :
    ((get_cotacoes_periodo ativo (agora - periodo_dias) agora).length < 2 →
      analisar_ativo db ticker agora periodo_dias =
        Resultado.erro "Dados insuficientes para análise") ∧
    (2 ≤ (get_cotacoes_periodo ativo (agora - periodo_dias) agora).length →
      ∃ r, analisar_ativo db ticker agora periodo_dias = Resultado.ok r) := by
  constructor
  · intro hlen
    simp only [analisar_ativo, h]
    rw [if_pos hlen]
  · intro hlen
    simp only [analisar_ativo, h]
    rw [if_neg (by omega)]
    exact ⟨_, rfl⟩

/-- Witness for C1: the single-quote instrument yields the
insufficient-data error, the two-quote instrument yields a report. -/
theorem analisar_ativo_dados_insuficientes_witness :
    analisar_ativo bancoTeste "Y" 10 20 =
      Resultado.erro "Dados insuficientes para análise" ∧
    ∃ r, analisar_ativo bancoTeste "X" 10 20 = Resultado.ok r := by
  constructor
  · exact (analisar_ativo_dados_insuficientes bancoTeste "Y" 10 20 ativoY rfl).1 (by decide)
  · exact (analisar_ativo_dados_insuficientes bancoTeste "X" 10 20 ativoX rfl).2 (by decide)

section OrdenacaoLemmas

variable {β : Type}

theorem sinsert_length (antes : β → β → Bool) (x : β) (l : List β) :
    (sinsert antes x l).length = l.length + 1 := by
  induction l with
  | nil => rfl
  | cons y ys ih =>
    cases h : antes x y
    · simp [sinsert, h, ih]
    · simp [sinsert, h]

theorem ssort_foldl_length (antes : β → β → Bool) (l acc : List β) :
    (l.foldl (fun acc x => sinsert antes x acc) acc).length = acc.length + l.length := by
  induction l generalizing acc with
  | nil => simp
  | cons x xs ih =>
    simp only [List.foldl_cons]
    rw [ih (sinsert antes x acc), sinsert_length]
    simp only [List.length_cons]
    omega

theorem ssort_length (antes : β → β → Bool) (l : List β) :
    (ssort antes l).length = l.length := by
  simpa [ssort] using ssort_foldl_length antes l []

end OrdenacaoLemmas

/-- C7: on a successful analysis, the reported `retorno_total` is the
simple return from the first to the last window price, and the reported
`retorno_anualizado` is `(1 + retorno_total) ^ (252 / n) - 1` where `n` is
the observation count — with no guard on `n` being small. -/
theorem analisar_ativo_retorno_formulas (db : BancoDeDados) (ticker : String)
    (agora periodo_dias : ℤ) (r : Relatorio)
    (h : analisar_ativo db ticker agora periodo_dias = Resultado.ok r) :
    ∃ ativo, get_ativo_by_ticker db ticker = some ativo ∧
      2 ≤ r.numero_observacoes ∧
      r.numero_observacoes = (precosDe ativo (agora - periodo_dias) agora).length ∧
      r.retorno_total =
        calcular_retorno_simples (precosDe ativo (agora - periodo_dias) agora).headI
          ((precosDe ativo (agora - periodo_dias) agora).getLastD 0) ∧
      r.retorno_anualizado =
        (1 + r.retorno_total) ^ ((252 : ℝ) / (r.numero_observacoes : ℝ)) - 1 := by
  cases ha : get_ativo_by_ticker db ticker with
  | none =>
    simp only [analisar_ativo, ha] at h
    exact Resultado.noConfusion h
  | some ativo =>
    simp only [analisar_ativo, ha] at h
    by_cases hlen : (get_cotacoes_periodo ativo (agora - periodo_dias) agora).length < 2
    · rw [if_pos hlen] at h
      exact Resultado.noConfusion h
    · rw [if_neg hlen] at h
      injection h with hr
      subst hr
      refine ⟨ativo, rfl, ?_, rfl, rfl, rfl⟩
      show 2 ≤ ((ordenarPorData (get_cotacoes_periodo ativo (agora - periodo_dias) agora)).map
        (fun c => c.preco_fechamento)).length
      rw [List.length_map, ordenarPorData, ssort_length]
      omega

/-- Witness for C7: on the two-quote instrument the produced report
satisfies the annualized-return extrapolation formula. -/
theorem analisar_ativo_retorno_formulas_witness :
    ∃ r, analisar_ativo bancoTeste "X" 10 20 = Resultado.ok r ∧
      r.retorno_anualizado =
        (1 + r.retorno_total) ^ ((252 : ℝ) / (r.numero_observacoes : ℝ)) - 1 := by
  refine ⟨_, rfl, ?_⟩
  obtain ⟨a, ha, h2, hn, ht, hann⟩ :=
    analisar_ativo_retorno_formulas bancoTeste "X" 10 20 _ rfl
  exact hann

/-- C10: `analisar_ativo` computes the reported Sharpe ratio with the
fixed default risk-free rate 0.1: the report's `sharpe_ratio` is
`calcular_sharpe_ratio retornos 0.1`, hence equals
`(mean(retornos)*252 - 0.1) / annualized_volatility(retornos)` whenever
there are at least 2 returns and the volatility is nonzero. -/
theorem analisar_ativo_sharpe_padrao (db : BancoDeDados) (ticker : String)
    (agora periodo_dias : ℤ) (r : Relatorio)
    (h : analisar_ativo db ticker agora periodo_dias = Resultado.ok r) :
    ∃ ativo, get_ativo_by_ticker db ticker = some ativo ∧
      r.sharpe_ratio =
        calcular_sharpe_ratio
          (calcular_retorno_composto (precosDe ativo (agora - periodo_dias) agora))
          (0.1 : ℝ) ∧
      (2 ≤ (calcular_retorno_composto (precosDe ativo (agora - periodo_dias) agora)).length →
        calcular_volatilidade
            (calcular_retorno_composto (precosDe ativo (agora - periodo_dias) agora)) true ≠ 0 →
        r.sharpe_ratio =
          (media (calcular_retorno_composto (precosDe ativo (agora - periodo_dias) agora)) * 252
              - 0.1) /
            calcular_volatilidade
              (calcular_retorno_composto (precosDe ativo (agora - periodo_dias) agora)) true) := by
  cases ha : get_ativo_by_ticker db ticker with
  | none =>
    simp only [analisar_ativo, ha] at h
    exact Resultado.noConfusion h
  | some ativo =>
    simp only [analisar_ativo, ha] at h
    by_cases hlen : (get_cotacoes_periodo ativo (agora - periodo_dias) agora).length < 2
    · rw [if_pos hlen] at h
      exact Resultado.noConfusion h
    · rw [if_neg hlen] at h
      injection h with hr
      subst hr
      refine ⟨ativo, rfl, rfl, fun h2 hv => ?_⟩
      show calcular_sharpe_ratio
        (calcular_retorno_composto (precosDe ativo (agora - periodo_dias) agora)) (0.1 : ℝ) = _
      simp only [calcular_sharpe_ratio,
        if_neg (by omega :
          ¬ (calcular_retorno_composto (precosDe ativo (agora - periodo_dias) agora)).length < 2),
        if_neg hv]

/-- Witness for C10: on the two-quote instrument the reported Sharpe ratio
is `calcular_sharpe_ratio` of the window returns at the default rate 0.1. -/
theorem analisar_ativo_sharpe_padrao_witness :
    ∃ r, analisar_ativo bancoTeste "X" 10 20 = Resultado.ok r ∧
      r.sharpe_ratio =
        calcular_sharpe_ratio
          (calcular_retorno_composto (precosDe ativoX (10 - 20) 10)) (0.1 : ℝ) := by
  refine ⟨_, rfl, ?_⟩
  obtain ⟨a, ha, h1, h2⟩ := analisar_ativo_sharpe_padrao bancoTeste "X" 10 20 _ rfl
  have hax : a = ativoX := by
    have hs : some a = some ativoX :=
      ha.symm.trans (rfl : get_ativo_by_ticker bancoTeste "X" = some ativoX)
    exact Option.some_injective _ hs
  rw [hax] at h1
  exact h1

section CarteiraLemmas

theorem passoAtualiza_eq (acc : List CarteiraAtivo × ℝ) (ca : CarteiraAtivo) :
    passoAtualiza acc ca = (acc.1 ++ [atualizaHolding ca], acc.2 + valorAtualDe ca) := by
  unfold passoAtualiza atualizaHolding valorAtualDe
  cases h : ultima_cotacao ca.cotacoes with
  | some q => simp [h]
  | none => simp [h]

theorem atualizar_foldl (l : List CarteiraAtivo) :
    ∀ (acc : List CarteiraAtivo) (s : ℝ),
      l.foldl passoAtualiza (acc, s) =
        (acc ++ l.map atualizaHolding,
         s + ((l.map atualizaHolding).map (fun ca => ca.valor_atual)).sum) := by
  induction l with
  | nil => intro acc s; simp
  | cons ca cas ih =>
    intro acc s
    rw [List.foldl_cons, passoAtualiza_eq, ih]
    simp [atualizaHolding, add_assoc]

end CarteiraLemmas

/-- C9 (amended): on a portfolio read, each holding's `valor_atual` becomes
quantity times the most recent stored price (0 when no quote exists), the
portfolio total is the sum of these values, and a holding's weight is
recomputed to `valor_atual / total * 100` only when both the total and the
holding's `valor_atual` are nonzero — otherwise the weight is left at its
previous stored value (not reset to 0). -/
theorem carteira_leitura_spec (c : CarteiraDeAtivos) :
    (atualizar_valor_carteira c).1.ativos = c.ativos.map atualizaHolding ∧
    (atualizar_valor_carteira c).2 =
      ((c.ativos.map atualizaHolding).map (fun ca => ca.valor_atual)).sum ∧
    (atualizar_valor_carteira c).1.valor_total = (atualizar_valor_carteira c).2 ∧
    (leitura_carteira c).ativos =
      (c.ativos.map atualizaHolding).map (fun ca =>
        if (atualizar_valor_carteira c).2 ≠ 0 ∧ ca.valor_atual ≠ 0
        then { ca with percentual_carteira :=
                 ca.valor_atual / (atualizar_valor_carteira c).2 * 100 }
        else ca) := by
  have hfold := atualizar_foldl c.ativos [] 0
  have h1 : (atualizar_valor_carteira c).1.ativos = c.ativos.map atualizaHolding := by
    simp [atualizar_valor_carteira, hfold]
  have h2 : (atualizar_valor_carteira c).2 =
      ((c.ativos.map atualizaHolding).map (fun ca => ca.valor_atual)).sum := by
    simp [atualizar_valor_carteira, hfold]
  have h3 : (atualizar_valor_carteira c).1.valor_total = (atualizar_valor_carteira c).2 := rfl
  refine ⟨h1, h2, h3, ?_⟩
  unfold leitura_carteira calcular_percentual_carteira
  by_cases htot : (atualizar_valor_carteira c).1.valor_total = 0
  · rw [if_pos htot, h1]
    have htot2 : (atualizar_valor_carteira c).2 = 0 := h3 ▸ htot
    calc c.ativos.map atualizaHolding
        = (c.ativos.map atualizaHolding).map id := (List.map_id _).symm
      _ = (c.ativos.map atualizaHolding).map (fun ca =>
            if (atualizar_valor_carteira c).2 ≠ 0 ∧ ca.valor_atual ≠ 0
            then { ca with percentual_carteira :=
                     ca.valor_atual / (atualizar_valor_carteira c).2 * 100 }
            else ca) := by
          apply List.map_congr_left
          intro ca _
          simp [htot2]
  · rw [if_neg htot]
    have htot2 : (atualizar_valor_carteira c).2 ≠ 0 := fun he => htot (h3.trans he)
    show (atualizar_valor_carteira c).1.ativos.map _ = _
    rw [h1, h3]
    apply List.map_congr_left
    intro ca _
    by_cases hv : ca.valor_atual = 0
    · simp [hv]
    · simp [hv, htot2]

/-- C9 counterexample: the claim says that when the portfolio total is 0
the skipped recomputation leaves each weight at 0; on a portfolio whose
only holding has no stored quote but a stale stored weight of 50, the read
leaves the weight at 50, not 0. -/
theorem carteira_percentual_contraexemplo :
    (leitura_carteira carteiraPresa).ativos.map (fun ca => ca.percentual_carteira) = [50] ∧
    ¬ (leitura_carteira carteiraPresa).ativos.map (fun ca => ca.percentual_carteira) = [0] := by
  have h1 : (atualizar_valor_carteira carteiraPresa).1 =
      ⟨0, [⟨1, 0, 50, []⟩]⟩ := rfl
  have h2 : leitura_carteira carteiraPresa = ⟨0, [⟨1, 0, 50, []⟩]⟩ := by
    unfold leitura_carteira
    rw [h1]
    unfold calcular_percentual_carteira
    rw [if_pos rfl]
  rw [h2]
  constructor
  · simp
  · simp

section OrdenacaoEstavel

variable {β : Type} (antes : β → β → Bool)

theorem mem_sinsert (x : β) (l : List β) (z : β) :
    z ∈ sinsert antes x l ↔ z = x ∨ z ∈ l := by
  induction l with
  | nil => simp [sinsert]
  | cons y ys ih =>
    cases h : antes x y
    · simp only [sinsert, h, Bool.false_eq_true, if_false, List.mem_cons, ih]
      tauto
    · simp only [sinsert, h, if_true, List.mem_cons]

theorem sublist_sinsert (x : β) (l : List β) : l <+ sinsert antes x l := by
  induction l with
  | nil => simp [sinsert]
  | cons y ys ih =>
    cases h : antes x y
    · simpa only [sinsert, h, Bool.false_eq_true, if_false] using List.Sublist.cons₂ y ih
    · simp only [sinsert, h, if_true]
      exact List.sublist_cons_self x (y :: ys)

theorem sinsert_pairwise
    (hA : ∀ a b, antes a b = true → antes b a = false)
    (hT : ∀ a b c, antes b a = false → antes c b = false → antes c a = false)
    (x : β) (l : List β) (hl : l.Pairwise (fun a b => antes b a = false)) :
    (sinsert antes x l).Pairwise (fun a b => antes b a = false) := by
  induction l with
  | nil => simp [sinsert]
  | cons y ys ih =>
    obtain ⟨hy, hys⟩ := List.pairwise_cons.mp hl
    cases h : antes x y
    · simp only [sinsert, h, Bool.false_eq_true, if_false]
      rw [List.pairwise_cons]
      refine ⟨?_, ih hys⟩
      intro z hz
      rcases (mem_sinsert antes x ys z).mp hz with hzx | hzy
      · subst hzx
        exact h
      · exact hy z hzy
    · simp only [sinsert, h, if_true]
      rw [List.pairwise_cons]
      constructor
      · intro z hz
        rcases List.mem_cons.mp hz with hzy | hzys
        · rw [hzy]
          exact hA x y h
        · exact hT x y z (hA x y h) (hy z hzys)
      · exact hl

theorem sinsert_perm (x : β) (l : List β) : sinsert antes x l ~ x :: l := by
  induction l with
  | nil => simp [sinsert]
  | cons y ys ih =>
    cases h : antes x y
    · simp only [sinsert, h, Bool.false_eq_true, if_false]
      calc y :: sinsert antes x ys
          ~ y :: x :: ys := List.Perm.cons y ih
        _ ~ x :: y :: ys := List.Perm.swap x y ys
    · simp [sinsert, h]

theorem ssort_foldl_pairwise
    (hA : ∀ a b, antes a b = true → antes b a = false)
    (hT : ∀ a b c, antes b a = false → antes c b = false → antes c a = false)
    (l : List β) :
    ∀ acc : List β, acc.Pairwise (fun a b => antes b a = false) →
      (l.foldl (fun acc x => sinsert antes x acc) acc).Pairwise
        (fun a b => antes b a = false) := by
  induction l with
  | nil => intro acc hacc; simpa using hacc
  | cons x xs ih =>
    intro acc hacc
    rw [List.foldl_cons]
    exact ih (sinsert antes x acc) (sinsert_pairwise antes hA hT x acc hacc)

theorem ssort_pairwise
    (hA : ∀ a b, antes a b = true → antes b a = false)
    (hT : ∀ a b c, antes b a = false → antes c b = false → antes c a = false)
    (l : List β) :
    (ssort antes l).Pairwise (fun a b => antes b a = false) :=
  ssort_foldl_pairwise antes hA hT l [] List.Pairwise.nil

theorem ssort_foldl_perm (l : List β) :
    ∀ acc : List β, (l.foldl (fun acc x => sinsert antes x acc) acc) ~ acc ++ l := by
  induction l with
  | nil => intro acc; simp
  | cons x xs ih =>
    intro acc
    rw [List.foldl_cons]
    calc (xs.foldl (fun acc x => sinsert antes x acc) (sinsert antes x acc))
        ~ sinsert antes x acc ++ xs := ih (sinsert antes x acc)
      _ ~ (x :: acc) ++ xs := (sinsert_perm antes x acc).append_right xs
      _ ~ acc ++ x :: xs := List.perm_middle.symm

theorem ssort_perm (l : List β) : ssort antes l ~ l := by
  simpa [ssort] using ssort_foldl_perm antes l []

end OrdenacaoEstavel

section OrdenacaoEstabilidade

variable {β : Type} (antes : β → β → Bool)

theorem sinsert_stable
    (hS : ∀ x y z, antes x y = true → antes z y = false → antes x z = true)
    (x : β) (acc : List β) (hsorted : acc.Pairwise (fun a b => antes b a = false))
    (a : β) (ha : a ∈ acc) (hxa : antes x a = false) :
    [a, x] <+ sinsert antes x acc := by
  induction acc with
  | nil => exact absurd ha (List.not_mem_nil a)
  | cons y ys ih =>
    obtain ⟨hy, hys⟩ := List.pairwise_cons.mp hsorted
    cases h : antes x y
    · simp only [sinsert, h, Bool.false_eq_true, if_false]
      rcases List.mem_cons.mp ha with hay | hays
      · rw [hay]
        refine List.Sublist.cons₂ y ?_
        exact List.singleton_sublist.mpr ((mem_sinsert antes x ys x).mpr (Or.inl rfl))
      · exact List.Sublist.cons y (ih hys hays)
    · exfalso
      rcases List.mem_cons.mp ha with hay | hays
      · rw [hay] at hxa
        exact absurd h (by rw [hxa]; simp)
      · have hxa2 : antes x a = true := hS x y a h (hy a hays)
        rw [hxa] at hxa2
        exact Bool.false_ne_true hxa2

theorem ssort_foldl_stable
    (hA : ∀ a b, antes a b = true → antes b a = false)
    (hT : ∀ a b c, antes b a = false → antes c b = false → antes c a = false)
    (hS : ∀ x y z, antes x y = true → antes z y = false → antes x z = true)
    (l : List β) :
    ∀ acc : List β, acc.Pairwise (fun a b => antes b a = false) →
      ∀ a b : β, antes a b = false → antes b a = false →
        (([a, b] <+ acc → [a, b] <+ l.foldl (fun acc x => sinsert antes x acc) acc) ∧
         (a ∈ acc → b ∈ l → [a, b] <+ l.foldl (fun acc x => sinsert antes x acc) acc) ∧
         ([a, b] <+ l → [a, b] <+ l.foldl (fun acc x => sinsert antes x acc) acc)) := by
  induction l with
  | nil =>
    intro acc hacc a b hab hba
    refine ⟨fun h => h, fun _ hb => absurd hb (List.not_mem_nil b), fun h => ?_⟩
    exact absurd (List.sublist_nil.mp h) (by simp)
  | cons x xs ih =>
    intro acc hacc a b hab hba
    have hacc' : (sinsert antes x acc).Pairwise (fun a b => antes b a = false) :=
      sinsert_pairwise antes hA hT x acc hacc
    have IH := ih (sinsert antes x acc) hacc' a b hab hba
    simp only [List.foldl_cons]
    refine ⟨?_, ?_, ?_⟩
    · intro h
      exact IH.1 (h.trans (sublist_sinsert antes x acc))
    · intro haacc hbxxs
      rcases List.mem_cons.mp hbxxs with hbx | hbxs
      · subst hbx
        exact IH.1 (sinsert_stable antes hS b acc hacc a haacc hba)
      · exact IH.2.1 ((mem_sinsert antes x acc a).mpr (Or.inr haacc)) hbxs
    · intro h
      cases h with
      | cons _ h' => exact IH.2.2 h'
      | cons₂ _ h' =>
        have hbxs : b ∈ xs := List.singleton_sublist.mp h'
        exact IH.2.1 ((mem_sinsert antes x acc x).mpr (Or.inl rfl)) hbxs

theorem ssort_stable
    (hA : ∀ a b, antes a b = true → antes b a = false)
    (hT : ∀ a b c, antes b a = false → antes c b = false → antes c a = false)
    (hS : ∀ x y z, antes x y = true → antes z y = false → antes x z = true)
    (l : List β) (a b : β) (hab : antes a b = false) (hba : antes b a = false)
    (h : [a, b] <+ l) : [a, b] <+ ssort antes l :=
  (ssort_foldl_stable antes hA hT hS l [] List.Pairwise.nil a b hab hba).2.2 h

end OrdenacaoEstabilidade

section ComparacaoLemmas

theorem dictInsert_mem (m : List (String × Relatorio)) (k : String) (v : Relatorio)
    (hkv : ∀ p ∈ m, p.1 = k → p.2 = v) (p : String × Relatorio) :
    p ∈ dictInsert m k v ↔ p ∈ m ∨ p = (k, v) := by
  unfold dictInsert
  by_cases hany : m.any (fun q => q.1 == k)
  · rw [if_pos hany]
    have hmap : m.map (fun q => if q.1 == k then (k, v) else q) = m := by
      conv_rhs => rw [← List.map_id m]
      apply List.map_congr_left
      intro q hq
      by_cases hqk : q.1 = k
      · have hq2 : q.2 = v := hkv q hq hqk
        simp only [hqk, beq_self_eq_true, if_true, id_eq]
        exact (Prod.ext_iff.mpr ⟨hqk, hq2⟩).symm
      · simp only [id_eq, ite_eq_right_iff]
        intro hbeq
        exact absurd (by simpa using hbeq) hqk
    rw [hmap]
    constructor
    · exact Or.inl
    · rintro (hp | hp)
      · exact hp
      · subst hp
        obtain ⟨q, hqm, hqk⟩ := List.any_eq_true.mp hany
        have hk : q.1 = k := by simpa using hqk
        have hv : q.2 = v := hkv q hqm hk
        have hq : q = (k, v) := Prod.ext_iff.mpr ⟨hk, hv⟩
        exact hq ▸ hqm
  · rw [if_neg hany]
    simp

theorem comparar_foldl_mem (db : BancoDeDados) (agora periodo_dias : ℤ)
    (tickers : List String) :
    ∀ m : List (String × Relatorio),
      (∀ p : String × Relatorio, p ∈ m →
        analisar_ativo db p.1 agora periodo_dias = Resultado.ok p.2) →
      ∀ p : String × Relatorio,
        p ∈ tickers.foldl (passoComparar db agora periodo_dias) m ↔
          p ∈ m ∨ (p.1 ∈ tickers ∧
            analisar_ativo db p.1 agora periodo_dias = Resultado.ok p.2) := by
  induction tickers with
  | nil =>
    intro m hm p
    simp
  | cons t ts ih =>
    intro m hm p
    rw [List.foldl_cons]
    cases ht : analisar_ativo db t agora periodo_dias with
    | erro msg =>
      have hstep : passoComparar db agora periodo_dias m t = m := by
        unfold passoComparar
        rw [ht]
      rw [hstep, ih m hm p]
      constructor
      · rintro (h | ⟨h1, h2⟩)
        · exact Or.inl h
        · exact Or.inr ⟨List.mem_cons_of_mem t h1, h2⟩
      · rintro (h | ⟨h1, h2⟩)
        · exact Or.inl h
        · rcases List.mem_cons.mp h1 with h1t | h1ts
          · rw [h1t] at h2
            rw [h2] at ht
            exact Resultado.noConfusion ht
          · exact Or.inr ⟨h1ts, h2⟩
    | ok r =>
      have hkv : ∀ q ∈ m, q.1 = t → q.2 = r := by
        intro q hq hqt
        have := hm q hq
        rw [hqt, ht] at this
        injection this with h'
        exact h'.symm
      have hstep : passoComparar db agora periodo_dias m t = dictInsert m t r := by
        unfold passoComparar
        rw [ht]
      have hm' : ∀ q : String × Relatorio, q ∈ dictInsert m t r →
          analisar_ativo db q.1 agora periodo_dias = Resultado.ok q.2 := by
        intro q hq
        rcases (dictInsert_mem m t r hkv q).mp hq with hq' | hq'
        · exact hm q hq'
        · subst hq'
          exact ht
      rw [hstep, ih (dictInsert m t r) hm' p, dictInsert_mem m t r hkv p]
      constructor
      · rintro ((h | h) | ⟨h1, h2⟩)
        · exact Or.inl h
        · subst h
          exact Or.inr ⟨List.mem_cons_self t ts, ht⟩
        · exact Or.inr ⟨List.mem_cons_of_mem t h1, h2⟩
      · rintro (h | ⟨h1, h2⟩)
        · exact Or.inl (Or.inl h)
        · rcases List.mem_cons.mp h1 with h1t | h1ts
          · refine Or.inl (Or.inr ?_)
            have h2' : analisar_ativo db t agora periodo_dias = Resultado.ok p.2 := by
              rw [← h1t]
              exact h2
            rw [ht] at h2'
            injection h2' with h2''
            exact Prod.ext_iff.mpr ⟨h1t, h2''.symm⟩
          · exact Or.inr ⟨h1ts, h2⟩

theorem resultadosDe_mem (db : BancoDeDados) (tickers : List String)
    (agora periodo_dias : ℤ) (p : String × Relatorio) :
    p ∈ resultadosDe db tickers agora periodo_dias ↔
      p.1 ∈ tickers ∧ analisar_ativo db p.1 agora periodo_dias = Resultado.ok p.2 := by
  unfold resultadosDe
  rw [comparar_foldl_mem db agora periodo_dias tickers [] (by simp) p]
  simp

end ComparacaoLemmas

/-- C8: `comparar_ativos` analyses every ticker, discards those whose
analysis errored, errors if and only if every ticker failed, and otherwise
returns exactly the surviving entries, sorted by Sharpe ratio descending
with ties kept in input order (stability of the sort). -/
theorem comparar_ativos_spec (db : BancoDeDados) (tickers : List String)
    (agora periodo_dias : ℤ) :
    (comparar_ativos db tickers agora periodo_dias =
        ResultadoComparacao.erro "Nenhum ativo válido para comparação" ↔
      ∀ t ∈ tickers, ∃ msg, analisar_ativo db t agora periodo_dias = Resultado.erro msg) ∧
    (∀ tab det,
      comparar_ativos db tickers agora periodo_dias = ResultadoComparacao.ok tab det →
      (∀ p : String × Relatorio, p ∈ det ↔
        (p.1 ∈ tickers ∧ analisar_ativo db p.1 agora periodo_dias = Resultado.ok p.2)) ∧
      tab.Perm (det.map (fun p => paraEntrada p.1 p.2)) ∧
      tab.Pairwise (fun e1 e2 => e2.sharpe_ratio ≤ e1.sharpe_ratio) ∧
      (∀ e1 e2 : EntradaComparacao, e1.sharpe_ratio = e2.sharpe_ratio →
        [e1, e2] <+ det.map (fun p => paraEntrada p.1 p.2) → [e1, e2] <+ tab)) := by
  have hA : ∀ a b : EntradaComparacao,
      (decide (b.sharpe_ratio < a.sharpe_ratio)) = true →
      (decide (a.sharpe_ratio < b.sharpe_ratio)) = false := by
    intro a b h
    rw [decide_eq_true_eq] at h
    rw [decide_eq_false_iff_not]
    exact not_lt.mpr h.le
  have hT : ∀ a b c : EntradaComparacao,
      (decide (a.sharpe_ratio < b.sharpe_ratio)) = false →
      (decide (b.sharpe_ratio < c.sharpe_ratio)) = false →
      (decide (a.sharpe_ratio < c.sharpe_ratio)) = false := by
    intro a b c h1 h2
    rw [decide_eq_false_iff_not] at h1 h2
    rw [decide_eq_false_iff_not]
    intro hac
    exact h1 (lt_of_lt_of_le hac (not_lt.mp h2))
  have hS : ∀ x y z : EntradaComparacao,
      (decide (y.sharpe_ratio < x.sharpe_ratio)) = true →
      (decide (y.sharpe_ratio < z.sharpe_ratio)) = false →
      (decide (z.sharpe_ratio < x.sharpe_ratio)) = true := by
    intro x y z h1 h2
    rw [decide_eq_true_eq] at h1
    rw [decide_eq_false_iff_not] at h2
    rw [decide_eq_true_eq]
    exact lt_of_le_of_lt (not_lt.mp h2) h1
  constructor
  · simp only [comparar_ativos]
    by_cases hR : (resultadosDe db tickers agora periodo_dias).isEmpty = true
    · rw [if_pos hR]
      constructor
      · intro _ t ht
        cases han : analisar_ativo db t agora periodo_dias with
        | erro msg => exact ⟨msg, rfl⟩
        | ok r =>
          exfalso
          have hmem : (t, r) ∈ resultadosDe db tickers agora periodo_dias :=
            (resultadosDe_mem db tickers agora periodo_dias (t, r)).mpr ⟨ht, han⟩
          rw [List.isEmpty_iff] at hR
          rw [hR] at hmem
          exact absurd hmem (List.not_mem_nil _)
      · intro _
        rfl
    · rw [if_neg hR]
      constructor
      · intro hcontra
        exact ResultadoComparacao.noConfusion hcontra
      · intro hall
        exfalso
        have hne : resultadosDe db tickers agora periodo_dias ≠ [] := by
          intro he
          rw [he] at hR
          exact hR rfl
        obtain ⟨p, hp⟩ := List.exists_mem_of_ne_nil _ hne
        obtain ⟨hpt, hpok⟩ := (resultadosDe_mem db tickers agora periodo_dias p).mp hp
        obtain ⟨msg, hmsg⟩ := hall p.1 hpt
        rw [hmsg] at hpok
        exact Resultado.noConfusion hpok
  · intro tab det h
    simp only [comparar_ativos] at h
    by_cases hR : (resultadosDe db tickers agora periodo_dias).isEmpty = true
    · rw [if_pos hR] at h
      exact ResultadoComparacao.noConfusion h
    · rw [if_neg hR] at h
      injection h with htab hdet
      subst htab
      subst hdet
      refine ⟨resultadosDe_mem db tickers agora periodo_dias, ?_, ?_, ?_⟩
      · exact ssort_perm _ _
      · have hp := ssort_pairwise (fun a b => decide (b.sharpe_ratio < a.sharpe_ratio)) hA hT
          ((resultadosDe db tickers agora periodo_dias).map (fun p => paraEntrada p.1 p.2))
        refine hp.imp ?_
        intro a b hab
        rw [decide_eq_false_iff_not] at hab
        exact not_lt.mp hab
      · intro e1 e2 heq hsub
        refine ssort_stable _ hA hT hS _ e1 e2 ?_ ?_ hsub
        · rw [decide_eq_false_iff_not, heq]
          exact lt_irrefl _
        · rw [decide_eq_false_iff_not, heq]
          exact lt_irrefl _

/-- Witness for C8: with only the unknown ticker "A" the comparison
errors; with tickers ["A", "X"] where "A" fails and "X" succeeds, the
table contains exactly the entry for "X". -/
theorem comparar_ativos_spec_witness :
    comparar_ativos bancoTeste ["A"] 10 20 =
      ResultadoComparacao.erro "Nenhum ativo válido para comparação" ∧
    ∃ tab det, comparar_ativos bancoTeste ["A", "X"] 10 20 =
        ResultadoComparacao.ok tab det ∧
      tab.map (fun e => e.ticker) = ["X"] := by
  constructor
  · apply (comparar_ativos_spec bancoTeste ["A"] 10 20).1.mpr
    intro t ht
    rw [List.mem_singleton] at ht
    subst ht
    exact ⟨"Ativo não encontrado", rfl⟩
  · exact ⟨_, _, rfl, rfl⟩
/-- Witness for C9 (amended) on the spec scenario-B portfolio: the total
is the sum of the refreshed values, concretely 1500, and the recomputed
weights are 100/3 and 200/3 percent. -/
theorem carteira_leitura_spec_witness :
    (atualizar_valor_carteira carteiraB).2 =
      ((carteiraB.ativos.map atualizaHolding).map (fun ca => ca.valor_atual)).sum ∧
    (atualizar_valor_carteira carteiraB).2 = 1500 ∧
    (leitura_carteira carteiraB).ativos.map (fun ca => ca.percentual_carteira) =
      [100/3, 200/3] := by
  refine ⟨(carteira_leitura_spec carteiraB).2.1, ?_, ?_⟩
  · norm_num [atualizar_valor_carteira, passoAtualiza, carteiraB, ultima_cotacao, ssort,
      sinsert, valorAtualDe]
  · norm_num [leitura_carteira, calcular_percentual_carteira, atualizar_valor_carteira,
      passoAtualiza, carteiraB, ultima_cotacao, ssort, sinsert]
